import Mathlib

/-!
Verification of the Nardis turn orchestrator (`src/modules/nardis.ts`).

The definitions below are a shallow embedding of the `Nardis` class.  Numbers
that are integral in the game (gold, distance, costs) are modelled as `Int`;
upgrade effect values and the turn-cost accumulator, which JavaScript holds as
arbitrary numbers, are modelled as `ℚ`.  JavaScript truthiness quirks that the
source relies on (arrays are always truthy, `0` is falsy) are embedded
explicitly and noted at each use site.  Player identity (`Player.equals`) is an
identity comparison in the source; it is modelled by id equality, with
distinctness of ids carried as a hypothesis where it matters.
-/

inductive PlayerType where
  | Human
  | Computer
deriving DecidableEq

inductive UpgradeType where
  | TrackValueCheaper
  | TrainValueCheaper
  | TurnCostCheaper
deriving DecidableEq

inductive FinanceType where
  | Track
  | Train
  | Upgrade
deriving DecidableEq

structure Upgrade where
  id : String
  type : UpgradeType
  value : ℚ
  cost : Int
deriving DecidableEq

/-- Player as seen by the orchestrator.  The `Player` class itself is not part
of the included sources; the fields here are the ones `nardis.ts` reads:
`id` (identity, used by `equals`), `playerType`, `gold`.  `throws` abstracts
whether this player's externally-defined `handleTurn` raises an error. -/
structure Player where
  id : String
  playerType : PlayerType
  gold : Int
  throws : Bool
deriving DecidableEq

/-- Modelled from the spec: `getRangeTurnCost` lives in `src/util/util`, which
is not among the included sources.  Per §4.3 the base turn cost is "a monotonic
step function of distance (longer routes take more turns to build)"; we model
it as a concrete nondecreasing step function with positive steps. -/
def getRangeTurnCost (distance : Int) : Int :=
  if distance < 50 then 1
  else if distance < 150 then 2
  else if distance < 225 then 3
  else if distance < 275 then 4
  else 5

structure RouteCost where
  goldCost : Int
  turnCost : ℚ
deriving DecidableEq

/-- One iteration of the `valUp.forEach` loop in `getPotentialRouteCost`
(nardis.ts:280-287): `value = Math.floor(goldCost * e.value)`, then clamp the
result to 10 whenever `goldCost - value` would drop below 10. -/
def applyTrackUpgrade (goldCost : Int) (e : Upgrade) : Int :=
  let value : Int := ⌊(goldCost : ℚ) * e.value⌋
  if goldCost - value < 10 then 10 else goldCost - value

/-- One iteration of the `turnUp.forEach` loop (nardis.ts:288-292): the flat
value is subtracted only when the current `turnCost` is at least 2. -/
def applyTurnUpgrade (turnCost : ℚ) (e : Upgrade) : ℚ :=
  if turnCost ≥ 2 then turnCost - e.value else turnCost

/-- `Nardis.getPotentialRouteCost` (nardis.ts:274-297).  The current player's
upgrade list is passed explicitly.  The trailing `turnCost ? turnCost : 1` is
JavaScript truthiness: only an exactly-zero turn cost is replaced by 1. -/
def getPotentialRouteCost (upgrades : List Upgrade) (distance : Int) : RouteCost :=
  let valUp := upgrades.filter (fun u => u.type == UpgradeType.TrackValueCheaper)
  let turnUp := upgrades.filter (fun u => u.type == UpgradeType.TurnCostCheaper)
  let goldCost : Int := valUp.foldl applyTrackUpgrade (distance * 2)
  let turnCost : ℚ := turnUp.foldl applyTurnUpgrade ((getRangeTurnCost distance : Int) : ℚ)
  { goldCost := goldCost, turnCost := if turnCost = 0 then 1 else turnCost }

/-- `Nardis.hasAnyPlayerWon` (nardis.ts:138-144).  The source computes
`result = players.filter(p => p.gold > 10000)` and then uses `result` itself
as a condition: a JavaScript array is always truthy, so the `: null` branch of
the conditional never runs and `!!result` is always `true`; `result[0]` is
`undefined` (here `none`) when no player passes the filter. -/
def hasAnyPlayerWon (players : List Player) : Option Player × Bool :=
  let result := players.filter (fun p => p.gold > 10000)
  (result.head?, true)

structure FinanceEntry where
  type : FinanceType
  id : String
  amount : Int
  value : Int
deriving DecidableEq

/-- Modelled from the spec: `Finance.addToFinanceExpense` is not among the
included sources; per §4.4 it appends a ledger entry holding quantity and unit
cost, keyed by category and subject id. -/
def addToFinanceExpense (expenses : List FinanceEntry) (t : FinanceType)
    (id : String) (amount : Int) (value : Int) : List FinanceEntry :=
  expenses ++ [{ type := t, id := id, amount := amount, value := value }]

/-- Modelled from the spec: `Finance.removeFromFinanceExpense` is not among
the included sources; per §4.4 it "deletes the matching entry and returns
whether one was found", and per §7 a failed validation mutates nothing. -/
def removeFromFinanceExpense (expenses : List FinanceEntry) (t : FinanceType)
    (id : String) : Bool × List FinanceEntry :=
  if expenses.any (fun e => e.type == t && e.id == id) then
    (true, expenses.filter (fun e => !(e.type == t && e.id == id)))
  else
    (false, expenses)

structure QueueEntry where
  routeId : String
  turnCost : Int
deriving DecidableEq

/-- Modelled from the spec: `Player.removeRouteFromQueue` is not among the
included sources; per §4.2 it removes the queued Route with the given id and
returns whether it was found, and per §7 a failed validation mutates nothing. -/
def removeRouteFromQueue (queue : List QueueEntry) (routeId : String) :
    Bool × List QueueEntry :=
  if queue.any (fun e => e.routeId == routeId) then
    (true, queue.filter (fun e => !(e.routeId == routeId)))
  else
    (false, queue)

/-- The mutable state touched by `addUpgradeToPlayer`: the current player's
owned upgrades and Finance expense ledger.  A JavaScript array cell can hold
`undefined`, so the owned list holds `Option Upgrade`. -/
structure PlayerUpgradeState where
  ownedUpgrades : List (Option Upgrade)
  expenses : List FinanceEntry
deriving DecidableEq

/-- `Nardis.addUpgradeToPlayer` (nardis.ts:175-188).  The source guards with
`if (matchedUpgrade)` where `matchedUpgrade` is the result of `filter`: a
JavaScript array is always truthy, so the branch is always taken and the
`return false` at the end is unreachable.  When no catalog upgrade matches,
`matchedUpgrade[0]` is `undefined`: `addUpgrade(undefined)` still runs (the
method, absent from the sources, is modelled per §4.2 as a plain append), and
evaluating `matchedUpgrade[0].id` for the finance call then raises a
`TypeError`; `none` in the first component records that raised error. -/
def addUpgradeToPlayer (catalog : List Upgrade) (st : PlayerUpgradeState)
    (id : String) : Option Bool × PlayerUpgradeState :=
  let matched := catalog.filter (fun u => u.id == id)
  match matched.head? with
  | some u =>
      (some true,
        { ownedUpgrades := st.ownedUpgrades ++ [some u],
          expenses := addToFinanceExpense st.expenses FinanceType.Upgrade u.id 1 u.cost })
  | none =>
      (none, { ownedUpgrades := st.ownedUpgrades ++ [none], expenses := st.expenses })

/-- The mutable state touched by `removeRouteFromPlayerQueue`: the current
player's route queue and Finance expense ledger. -/
structure PlayerLedgerState where
  queue : List QueueEntry
  expenses : List FinanceEntry
deriving DecidableEq

/-- `Nardis.handleRemoveRouteFromPlayerFinance` (nardis.ts:258-264): a
short-circuit conjunction of the Track and Train expense removals, so the
Train removal only runs (and only mutates) when the Track removal succeeded. -/
def handleRemoveRouteFromPlayerFinance (expenses : List FinanceEntry)
    (routeId trainId : String) : Bool × List FinanceEntry :=
  let r1 := removeFromFinanceExpense expenses FinanceType.Track routeId
  if r1.1 then removeFromFinanceExpense r1.2 FinanceType.Train trainId
  else (false, r1.2)

/-- `Nardis.removeRouteFromPlayerQueue` (nardis.ts:199-204): the queue removal
runs first; only if it succeeds are the finance removals attempted. -/
def removeRouteFromPlayerQueue (st : PlayerLedgerState) (routeId trainId : String) :
    Bool × PlayerLedgerState :=
  let r := removeRouteFromQueue st.queue routeId
  if r.1 then
    let f := handleRemoveRouteFromPlayerFinance st.expenses routeId trainId
    (f.1, { queue := r.2, expenses := f.2 })
  else
    (false, { queue := r.2, expenses := st.expenses })

/-- The whole-game state the turn machinery touches.  `currentPlayer` holds the
id of the `_currentPlayer` reference (identity modelled by id). -/
structure NardisState where
  players : List Player
  currentPlayer : String
  turn : Int
deriving DecidableEq

/-- The `players.forEach` loop body of `handleComputerTurn` (nardis.ts:222-232)
as a recursion carrying the mutating `_currentPlayer`.  Returns the raised
error (if a `handleTurn` threw, aborting the loop), the `_currentPlayer` value
at that moment, and the list of player ids whose `handleTurn` was invoked, in
invocation order.  Note the guard compares against the mutating
`_currentPlayer`, not the saved `actualPlayer`. -/
def compLoop (cur : String) : List Player → Option String × String × List String
  | [] => (none, cur, [])
  | p :: rest =>
    if p.id ≠ cur ∧ p.playerType = PlayerType.Computer then
      if p.throws then (some "handleTurn failed", p.id, [p.id])
      else
        ((compLoop p.id rest).1, (compLoop p.id rest).2.1,
          p.id :: (compLoop p.id rest).2.2)
    else compLoop cur rest

/-- `Nardis.handleComputerTurn` (nardis.ts:220-234).  The restore of
`actualPlayer` into `_currentPlayer` is the statement after the `forEach`:
it runs only when the loop completes without an error being raised. -/
def handleComputerTurn (cur : String) (players : List Player) :
    Option String × String × List String :=
  match compLoop cur players with
  | (none, _, l) => (none, cur, l)
  | (some e, c, l) => (some e, c, l)

structure EndTurnResult where
  err : Option String
  currentPlayer : String
  turn : Int
  log : List String
deriving DecidableEq

/-- `Nardis.endTurn` (nardis.ts:82-86): `handleComputerTurn()` then
`this._turn++` then `saveGame()`.  When a computer player's `handleTurn`
raises, the increment and the save never run and the error propagates. -/
def endTurn (st : NardisState) : EndTurnResult :=
  match handleComputerTurn st.currentPlayer st.players with
  | (none, c, l) => { err := none, currentPlayer := c, turn := st.turn + 1, log := l }
  | (some e, c, l) => { err := some e, currentPlayer := c, turn := st.turn, log := l }

/-- The value of the mutating `_currentPlayer` when the loop finishes
without an error. -/
def loopCur (cur : String) : List Player → String
  | [] => cur
  | p :: rest =>
    if p.id ≠ cur ∧ p.playerType = PlayerType.Computer then loopCur p.id rest
    else loopCur cur rest

/-- The `handleTurn` invocation log of the loop when no handler throws. -/
def turnLog (cur : String) : List Player → List String
  | [] => []
  | p :: rest =>
    if p.id ≠ cur ∧ p.playerType = PlayerType.Computer then p.id :: turnLog p.id rest
    else turnLog cur rest

/-- Whether the loop gives the player that was current at the start of
`handleComputerTurn` a `handleTurn` pass: this happens exactly when the first
computer player with a different id is later followed by a computer player
carrying the original current id. -/
def curGetsPass (c : String) : List Player → Bool
  | [] => false
  | p :: rest =>
    if p.id ≠ c ∧ p.playerType = PlayerType.Computer then
      rest.any (fun q => q.id == c && q.playerType == PlayerType.Computer)
    else curGetsPass c rest

/-- The state produced by the `Nardis` constructor (nardis.ts:44-55). -/
structure ConstructedNardis where
  players : List Player
  currentPlayer : Option Player
  turn : Int
deriving DecidableEq

/-- `Nardis` constructor (nardis.ts:44-55).  Both defaults use JavaScript
truthiness: `currentPlayer ? currentPlayer : this.players[0]` (an object is
always truthy, an absent argument is falsy; `players[0]` is `undefined` on an
empty list, hence the `Option`) and `turn ? turn : 1` (both an absent argument
and the number 0 are falsy). -/
def nardisConstructor (players : List Player) (currentPlayer : Option Player)
    (turn : Option Int) : ConstructedNardis :=
  { players := players,
    currentPlayer :=
      match currentPlayer with
      | some p => some p
      | none => players.head?,
    turn :=
      match turn with
      | some t => if t = 0 then 1 else t
      | none => 1 }

/-- Modelled from the spec: the `localKeys` constant and `LocalKey` enum live
in `src/util/constants` and `src/types/types`, which are not among the
included sources; per §6 the snapshot uses one distinct storage key per
category plus an "active game" flag. -/
inductive LocalKey where
  | HasActiveGame
  | Trains
  | Resources
  | Upgrades
  | Cities
  | Players
  | CurrentPlayer
  | Turn
deriving DecidableEq

def localKeys : LocalKey → String
  | LocalKey.HasActiveGame => "nardis-has-active-game"
  | LocalKey.Trains => "nardis-trains"
  | LocalKey.Resources => "nardis-resources"
  | LocalKey.Upgrades => "nardis-upgrades"
  | LocalKey.Cities => "nardis-cities"
  | LocalKey.Players => "nardis-players"
  | LocalKey.CurrentPlayer => "nardis-current-player"
  | LocalKey.Turn => "nardis-turn"

/-- JavaScript truthiness of `localStorage.getItem`: `null` (the key is
absent) and the empty string are the falsy results. -/
def jsFalsyString : Option String → Bool
  | none => true
  | some s => s == ""

/-- `Nardis.createFromLocalStorage` (nardis.ts:336-389).  Storage is a map
from keys to optionally-present strings.  The guard on the active-game flag is
taken verbatim from the source; the remainder of the method (decoding the
other seven keys and rebuilding the entity objects, whose classes are not
among the included sources) is abstracted as `reconstruct`, which is invoked
only on the success path. -/
def createFromLocalStorage {α : Type} (reconstruct : (String → Option String) → α)
    (storage : String → Option String) : Except String α :=
  if jsFalsyString (storage (localKeys LocalKey.HasActiveGame)) then
    Except.error "cannot recreate from empty storage"
  else
    Except.ok (reconstruct storage)

theorem applyTrackUpgrade_ge_ten (gc : Int) (u : Upgrade) : 10 ≤ applyTrackUpgrade gc u := by
  unfold applyTrackUpgrade
  by_cases h : gc - ⌊(gc : ℚ) * u.value⌋ < 10
  · rw [if_pos h]
  · rw [if_neg h]
    omega

theorem foldl_applyTrackUpgrade_ge (l : List Upgrade) :
    ∀ init : Int, min init 10 ≤ l.foldl applyTrackUpgrade init := by
  induction l with
  | nil =>
      intro init
      simpa using min_le_left init 10
  | cons u rest ih =>
      intro init
      rw [List.foldl_cons]
      have h2 : (10 : Int) ≤ applyTrackUpgrade init u := applyTrackUpgrade_ge_ten init u
      have h10 : (10 : Int) ≤ List.foldl applyTrackUpgrade (applyTrackUpgrade init u) rest := by
        calc (10 : Int) = min (applyTrackUpgrade init u) 10 := (min_eq_right h2).symm
          _ ≤ _ := ih (applyTrackUpgrade init u)
      exact le_trans (min_le_right init 10) h10

theorem foldl_applyTrackUpgrade_ge_ten (l : List Upgrade) (hne : l ≠ []) (init : Int) :
    10 ≤ l.foldl applyTrackUpgrade init := by
  cases l with
  | nil => exact absurd rfl hne
  | cons u rest =>
      rw [List.foldl_cons]
      calc (10 : Int) = min (applyTrackUpgrade init u) 10 :=
            (min_eq_right (applyTrackUpgrade_ge_ten init u)).symm
        _ ≤ _ := foldl_applyTrackUpgrade_ge rest (applyTrackUpgrade init u)

theorem foldl_applyTurnUpgrade_ge :
    ∀ (l : List Upgrade) (C : ℚ), (∀ u ∈ l, u.value ≤ C) →
      ∀ init : ℚ, min init (2 - C) ≤ l.foldl applyTurnUpgrade init := by
  intro l
  induction l with
  | nil =>
      intro C _ init
      simpa using min_le_left init (2 - C)
  | cons u rest ih =>
      intro C hC init
      rw [List.foldl_cons]
      have step : min init (2 - C) ≤ min (applyTurnUpgrade init u) (2 - C) := by
        unfold applyTurnUpgrade
        by_cases h : init ≥ 2
        · rw [if_pos h]
          have hu : u.value ≤ C := hC u (List.mem_cons_self u rest)
          have hsub : (2 : ℚ) - C ≤ init - u.value := by linarith
          exact le_trans (min_le_right _ _) (le_min hsub (le_refl _))
        · rw [if_neg h]
      exact le_trans step
        (ih C (fun q hq => hC q (List.mem_cons_of_mem u hq)) (applyTurnUpgrade init u))

theorem getRangeTurnCost_pos (d : Int) : 1 ≤ getRangeTurnCost d := by
  unfold getRangeTurnCost
  split_ifs <;> norm_num

/-- Claim C7: in `getPotentialRouteCost` every application of a
`TrackValueCheaper` upgrade (performed in list order, subtracting the floored
product unless the clamp fires) produces a gold cost of at least 10, and hence
a player owning at least one such upgrade never sees a final goldCost below
10, whatever the upgrade values. -/
theorem track_upgrade_floor_guard (upgrades : List Upgrade) (distance : Int)
    (h : upgrades.filter (fun u => u.type == UpgradeType.TrackValueCheaper) ≠ []) :
    (∀ (gc : Int) (u : Upgrade), 10 ≤ applyTrackUpgrade gc u) ∧
    10 ≤ (getPotentialRouteCost upgrades distance).goldCost := by
  refine ⟨applyTrackUpgrade_ge_ten, ?_⟩
  simp only [getPotentialRouteCost]
  exact foldl_applyTrackUpgrade_ge_ten _ h _

/-- Witness for claim C7 at a single half-price track upgrade and distance 3. -/
theorem track_upgrade_floor_guard_witness :
    10 ≤ (getPotentialRouteCost
      [⟨"v1", UpgradeType.TrackValueCheaper, (1 : ℚ)/2, 100⟩] 3).goldCost :=
  (track_upgrade_floor_guard _ 3 (by decide)).2

/-- Counterexample to claim C1 as stated: at distance 1 with no upgrades the
returned goldCost is 2, below the claimed lower bound of 10. -/
theorem getPotentialRouteCost_c1_counterexample :
    (getPotentialRouteCost [] 1).goldCost = 2 ∧
    ¬ (10 ≤ (getPotentialRouteCost [] 1).goldCost) := by
  exact ⟨by decide, by decide⟩

/-- Claim C1 as amended: for distance d > 0 the returned goldCost is at least
min (2·d) 10 (so the claimed bound of 10 only holds once d ≥ 5 or an upgrade
applies), and turnCost is at least 1 provided every owned `TurnCostCheaper`
upgrade has value at most 1. -/
theorem getPotentialRouteCost_bounds (upgrades : List Upgrade) (distance : Int)
    (hd : 0 < distance)
    (hv : ∀ u ∈ upgrades, u.type = UpgradeType.TurnCostCheaper → u.value ≤ 1) :
    min (distance * 2) 10 ≤ (getPotentialRouteCost upgrades distance).goldCost ∧
    1 ≤ (getPotentialRouteCost upgrades distance).turnCost := by
  constructor
  · simp only [getPotentialRouteCost]
    exact foldl_applyTrackUpgrade_ge _ _
  · simp only [getPotentialRouteCost]
    have hfilter : ∀ u ∈ upgrades.filter (fun u => u.type == UpgradeType.TurnCostCheaper),
        u.value ≤ 1 := by
      intro u hu
      have hm := List.mem_filter.mp hu
      exact hv u hm.1 (by simpa using hm.2)
    have hbase : (1 : ℚ) ≤ ((getRangeTurnCost distance : Int) : ℚ) := by
      exact_mod_cast getRangeTurnCost_pos distance
    have hfold := foldl_applyTurnUpgrade_ge _ 1 hfilter ((getRangeTurnCost distance : Int) : ℚ)
    have h1 : (1 : ℚ) ≤ (upgrades.filter (fun u => u.type == UpgradeType.TurnCostCheaper)).foldl
        applyTurnUpgrade ((getRangeTurnCost distance : Int) : ℚ) := by
      have hmin : min ((getRangeTurnCost distance : Int) : ℚ) (2 - 1) = 1 := by
        rw [show (2 : ℚ) - 1 = 1 by norm_num]
        exact min_eq_right hbase
      rw [hmin] at hfold
      exact hfold
    split
    · norm_num
    · exact h1

/-- Witness for the amended claim C1 at distance 1 with no upgrades. -/
theorem getPotentialRouteCost_bounds_witness :
    min ((1 : Int) * 2) 10 ≤ (getPotentialRouteCost [] 1).goldCost ∧
    1 ≤ (getPotentialRouteCost [] 1).turnCost :=
  getPotentialRouteCost_bounds [] 1 (by decide) (by simp)

/-- Counterexample to claim C8 as stated: a `TurnCostCheaper` upgrade of value
5 at distance 150 (base turn cost 3) drives turnCost to -2: the loop does go
below 2, and the final value is not floored to 1. -/
theorem turnCost_c8_counterexample :
    (getPotentialRouteCost [⟨"t1", UpgradeType.TurnCostCheaper, 5, 100⟩] 150).turnCost = -2 ∧
    ¬ (1 ≤ (getPotentialRouteCost [⟨"t1", UpgradeType.TurnCostCheaper, 5, 100⟩] 150).turnCost) := by
  have h : (getPotentialRouteCost [⟨"t1", UpgradeType.TurnCostCheaper, 5, 100⟩] 150).turnCost = -2 := by
    norm_num [getPotentialRouteCost, applyTurnUpgrade, getRangeTurnCost, List.filter]
  refine ⟨h, ?_⟩
  rw [h]
  norm_num

/-- Claim C8 as amended: each `TurnCostCheaper` upgrade subtracts its flat
value only while the running turnCost is still at least 2 (a single
subtraction can push it below 2, even negative), and the final replacement by
1 happens only at exactly 0; hence with every upgrade value bounded by C the
returned turnCost is at least min (min base (2 - C)) 1. -/
theorem turnCost_lower_bound (upgrades : List Upgrade) (distance : Int) (C : ℚ)
    (hC : ∀ u ∈ upgrades, u.type = UpgradeType.TurnCostCheaper → u.value ≤ C) :
    min (min ((getRangeTurnCost distance : Int) : ℚ) (2 - C)) 1
      ≤ (getPotentialRouteCost upgrades distance).turnCost := by
  simp only [getPotentialRouteCost]
  have hfilter : ∀ u ∈ upgrades.filter (fun u => u.type == UpgradeType.TurnCostCheaper),
      u.value ≤ C := by
    intro u hu
    have hm := List.mem_filter.mp hu
    exact hC u hm.1 (by simpa using hm.2)
  have hfold := foldl_applyTurnUpgrade_ge _ C hfilter ((getRangeTurnCost distance : Int) : ℚ)
  split
  · exact min_le_right _ _
  · exact le_trans (min_le_left _ 1) hfold

/-- Witness for the amended claim C8 with a single value-1 upgrade at
distance 1. -/
theorem turnCost_lower_bound_witness :
    min (min ((getRangeTurnCost 1 : Int) : ℚ) (2 - 1)) 1
      ≤ (getPotentialRouteCost [⟨"t1", UpgradeType.TurnCostCheaper, 1, 10⟩] 1).turnCost :=
  turnCost_lower_bound _ 1 1 (by simp)

theorem compLoop_no_throws (l : List Player) :
    ∀ cur : String, (∀ p ∈ l, p.throws = false) →
      compLoop cur l = (none, loopCur cur l, turnLog cur l) := by
  induction l with
  | nil => intro cur _; rfl
  | cons p rest ih =>
      intro cur hnt
      have hp : p.throws = false := hnt p (List.mem_cons_self p rest)
      have hrest : ∀ q ∈ rest, q.throws = false :=
        fun q hq => hnt q (List.mem_cons_of_mem p hq)
      by_cases hg : p.id ≠ cur ∧ p.playerType = PlayerType.Computer
      · simp only [compLoop, loopCur, turnLog, if_pos hg, hp, Bool.false_eq_true,
          if_false, ih p.id hrest]
      · simp only [compLoop, loopCur, turnLog, if_neg hg]
        exact ih cur hrest

theorem endTurn_no_throws (st : NardisState)
    (hnt : ∀ p ∈ st.players, p.throws = false) :
    endTurn st = { err := none, currentPlayer := st.currentPlayer, turn := st.turn + 1,
                   log := turnLog st.currentPlayer st.players } := by
  unfold endTurn handleComputerTurn
  rw [compLoop_no_throws st.players st.currentPlayer hnt]

theorem turnLog_sublist (l : List Player) :
    ∀ cur : String, List.Sublist (turnLog cur l) (l.map Player.id) := by
  induction l with
  | nil => intro cur; simp [turnLog]
  | cons p rest ih =>
      intro cur
      by_cases hg : p.id ≠ cur ∧ p.playerType = PlayerType.Computer
      · simp only [turnLog, if_pos hg, List.map_cons]
        exact (ih p.id).cons₂ p.id
      · simp only [turnLog, if_neg hg, List.map_cons]
        exact (ih cur).cons p.id

theorem turnLog_count_le_one (l : List Player) (cur x : String)
    (hnd : (l.map Player.id).Nodup) : (turnLog cur l).count x ≤ 1 :=
  le_trans ((turnLog_sublist l cur).count_le x) (List.nodup_iff_count_le_one.mp hnd x)

theorem mem_turnLog_of (l : List Player) :
    ∀ (cur : String) (p : Player), (l.map Player.id).Nodup → p ∈ l →
      p.playerType = PlayerType.Computer → p.id ≠ cur → p.id ∈ turnLog cur l := by
  induction l with
  | nil => intro cur p _ hp; cases hp
  | cons q rest ih =>
      intro cur p hnd hp hcomp hne
      rcases List.mem_cons.mp hp with rfl | hp'
      · simp only [turnLog, if_pos (And.intro hne hcomp)]
        exact List.mem_cons_self _ _
      · have hnd' : (rest.map Player.id).Nodup := (List.nodup_cons.mp hnd).2
        have hqid : q.id ∉ rest.map Player.id := (List.nodup_cons.mp hnd).1
        have hne' : p.id ≠ q.id := by
          intro h
          exact hqid (h ▸ List.mem_map_of_mem Player.id hp')
        by_cases hg : q.id ≠ cur ∧ q.playerType = PlayerType.Computer
        · simp only [turnLog, if_pos hg]
          exact List.mem_cons_of_mem _ (ih q.id p hnd' hp' hcomp hne')
        · simp only [turnLog, if_neg hg]
          exact ih cur p hnd' hp' hcomp hne

theorem mem_turnLog_of_ne (c : String) (l : List Player) :
    ∀ cur : String, cur ≠ c →
      (c ∈ turnLog cur l ↔ ∃ p ∈ l, p.id = c ∧ p.playerType = PlayerType.Computer) := by
  induction l with
  | nil => intro cur _; simp [turnLog]
  | cons p rest ih =>
      intro cur hcur
      by_cases hg : p.id ≠ cur ∧ p.playerType = PlayerType.Computer
      · simp only [turnLog, if_pos hg, List.mem_cons]
        by_cases hpc : p.id = c
        · constructor
          · intro _
            exact ⟨p, Or.inl rfl, hpc, hg.2⟩
          · intro _
            left
            exact hpc.symm
        · rw [ih p.id hpc]
          constructor
          · rintro (h | ⟨q, hq, h1, h2⟩)
            · exact absurd h.symm hpc
            · exact ⟨q, Or.inr hq, h1, h2⟩
          · rintro ⟨q, hq, h1, h2⟩
            rcases hq with rfl | hq'
            · exact absurd h1 hpc
            · right
              exact ⟨q, hq', h1, h2⟩
      · simp only [turnLog, if_neg hg]
        rw [ih cur hcur]
        constructor
        · rintro ⟨q, hq, h1, h2⟩
          exact ⟨q, List.mem_cons_of_mem p hq, h1, h2⟩
        · rintro ⟨q, hq, h1, h2⟩
          rcases List.mem_cons.mp hq with rfl | hq'
          · exfalso
            have hqcur : q.id = cur := by
              by_contra hne
              exact hg ⟨hne, h2⟩
            exact hcur (hqcur ▸ h1)
          · exact ⟨q, hq', h1, h2⟩

theorem mem_turnLog_self (c : String) (l : List Player) :
    c ∈ turnLog c l ↔ curGetsPass c l = true := by
  induction l with
  | nil => simp [turnLog, curGetsPass]
  | cons p rest ih =>
      by_cases hg : p.id ≠ c ∧ p.playerType = PlayerType.Computer
      · simp only [turnLog, curGetsPass, if_pos hg, List.mem_cons]
        rw [mem_turnLog_of_ne c rest p.id hg.1, List.any_eq_true]
        constructor
        · rintro (h | ⟨q, hq, h1, h2⟩)
          · exact absurd h.symm hg.1
          · exact ⟨q, hq, by simp [h1, h2]⟩
        · rintro ⟨q, hq, hqb⟩
          have h1 : q.id = c ∧ q.playerType = PlayerType.Computer := by
            simpa using hqb
          right
          exact ⟨q, hq, h1.1, h1.2⟩
      · simp only [turnLog, curGetsPass, if_neg hg]
        exact ih

/-- Counterexample to claim C2 as stated: with the two computer players c1 and
c2 and c2 the current player at the moment of the call, the loop's guard
compares against the mutating current player, so after c1 is processed c2 no
longer equals the current player and also receives a handleTurn pass. -/
theorem endTurn_c2_counterexample :
    (endTurn ⟨[⟨"c1", PlayerType.Computer, 0, false⟩, ⟨"c2", PlayerType.Computer, 0, false⟩],
        "c2", 1⟩).log = ["c1", "c2"] ∧
    "c2" ∈ (endTurn ⟨[⟨"c1", PlayerType.Computer, 0, false⟩,
        ⟨"c2", PlayerType.Computer, 0, false⟩], "c2", 1⟩).log := by
  exact ⟨by decide, by decide⟩

/-- Claim C2 as amended: when no handler throws and player ids are distinct,
endTurn gives every computer player other than the original current player
exactly one handleTurn pass; the original current player receives a pass
exactly when it appears as a computer player after an earlier, different
computer player (`curGetsPass`), and receives none otherwise — in particular
when it is human or the first computer player reached; afterward the original
current player is current again and the turn counter has increased by 1. -/
theorem endTurn_passes (st : NardisState)
    (hnd : (st.players.map Player.id).Nodup)
    (hnt : ∀ p ∈ st.players, p.throws = false) :
    (endTurn st).err = none ∧
    (endTurn st).currentPlayer = st.currentPlayer ∧
    (endTurn st).turn = st.turn + 1 ∧
    (∀ p ∈ st.players, p.playerType = PlayerType.Computer → p.id ≠ st.currentPlayer →
      (endTurn st).log.count p.id = 1) ∧
    (endTurn st).log.count st.currentPlayer
      = (if curGetsPass st.currentPlayer st.players then 1 else 0) := by
  rw [endTurn_no_throws st hnt]
  refine ⟨rfl, rfl, rfl, ?_, ?_⟩
  · intro p hp hcomp hne
    refine le_antisymm (turnLog_count_le_one _ _ _ hnd) ?_
    exact List.count_pos_iff.mpr (mem_turnLog_of st.players st.currentPlayer p hnd hp hcomp hne)
  · by_cases h : curGetsPass st.currentPlayer st.players = true
    · rw [if_pos h]
      refine le_antisymm (turnLog_count_le_one _ _ _ hnd) ?_
      exact List.count_pos_iff.mpr ((mem_turnLog_self _ _).mpr h)
    · rw [if_neg h]
      refine List.count_eq_zero.mpr ?_
      intro hmem
      exact h ((mem_turnLog_self _ _).mp hmem)

/-- Witness for the amended claim C2: with a human current player and one
computer opponent, the opponent receives exactly one pass. -/
theorem endTurn_passes_witness :
    (endTurn ⟨[⟨"h", PlayerType.Human, 0, false⟩, ⟨"c1", PlayerType.Computer, 0, false⟩],
        "h", 5⟩).log.count "c1" = 1 :=
  (endTurn_passes ⟨[⟨"h", PlayerType.Human, 0, false⟩, ⟨"c1", PlayerType.Computer, 0, false⟩],
      "h", 5⟩ (by decide) (by decide)).2.2.2.1
    ⟨"c1", PlayerType.Computer, 0, false⟩ (by decide) (by decide) (by decide)

theorem compLoop_throw (l : List Player) :
    ∀ cur e : String, (compLoop cur l).1 = some e →
      e = "handleTurn failed" ∧
      ∃ p ∈ l, p.playerType = PlayerType.Computer ∧ p.throws = true ∧
        p.id = (compLoop cur l).2.1 := by
  induction l with
  | nil =>
      intro cur e h
      simp [compLoop] at h
  | cons p rest ih =>
      intro cur e h
      by_cases hg : p.id ≠ cur ∧ p.playerType = PlayerType.Computer
      · by_cases ht : p.throws = true
        · simp only [compLoop, if_pos hg, ht, if_true, Option.some.injEq] at h
          simp only [compLoop, if_pos hg, ht, if_true]
          exact ⟨h.symm, p, List.mem_cons_self p rest, hg.2, ht, rfl⟩
        · have ht' : p.throws = false := by
            simpa using ht
          simp only [compLoop, if_pos hg, ht', Bool.false_eq_true, if_false] at h
          simp only [compLoop, if_pos hg, ht', Bool.false_eq_true, if_false]
          obtain ⟨he, p', hp', hcm, hth, hid⟩ := ih p.id e h
          exact ⟨he, p', List.mem_cons_of_mem p hp', hcm, hth, hid⟩
      · simp only [compLoop, if_neg hg] at h
        simp only [compLoop, if_neg hg]
        obtain ⟨he, p', hp', hcm, hth, hid⟩ := ih cur e h
        exact ⟨he, p', List.mem_cons_of_mem p hp', hcm, hth, hid⟩

/-- Claim C3 as amended: when a computer player's handleTurn raises during
endTurn, the error does propagate to the caller (and the turn counter is not
incremented), but the current-player field is not restored: the restore
statement sits after the forEach with no try/finally, so on this exit path
the current player is left as the computer player whose handler threw. -/
theorem endTurn_throw_no_restore (st : NardisState) (e : String)
    (h : (compLoop st.currentPlayer st.players).1 = some e) :
    (endTurn st).err = some e ∧
    (endTurn st).turn = st.turn ∧
    (endTurn st).currentPlayer = (compLoop st.currentPlayer st.players).2.1 ∧
    ∃ p ∈ st.players, p.playerType = PlayerType.Computer ∧ p.throws = true ∧
      p.id = (endTurn st).currentPlayer := by
  obtain ⟨he, p, hp, hcm, hth, hid⟩ := compLoop_throw st.players st.currentPlayer e h
  rcases hcl : compLoop st.currentPlayer st.players with ⟨a, b, d⟩
  rw [hcl] at h hid
  simp only at h hid
  subst h
  have hout : endTurn st = { err := some e, currentPlayer := b, turn := st.turn, log := d } := by
    unfold endTurn handleComputerTurn
    rw [hcl]
  rw [hout]
  exact ⟨rfl, rfl, rfl, p, hp, hcm, hth, hid⟩

/-- Witness for the amended claim C3: one human current player and one
computer player whose handler throws. -/
theorem endTurn_throw_no_restore_witness :
    (endTurn ⟨[⟨"h", PlayerType.Human, 0, false⟩, ⟨"c", PlayerType.Computer, 0, true⟩],
        "h", 1⟩).currentPlayer
      = (compLoop "h" [⟨"h", PlayerType.Human, 0, false⟩,
          ⟨"c", PlayerType.Computer, 0, true⟩]).2.1 :=
  (endTurn_throw_no_restore ⟨[⟨"h", PlayerType.Human, 0, false⟩,
      ⟨"c", PlayerType.Computer, 0, true⟩], "h", 1⟩ "handleTurn failed" (by decide)).2.2.1

/-- Counterexample to claim C3 as stated: with current player h (human) and a
computer player c whose handler throws, the error propagates but the
current-player field is left at c, not restored to h. -/
theorem endTurn_c3_counterexample :
    (endTurn ⟨[⟨"h", PlayerType.Human, 0, false⟩, ⟨"c", PlayerType.Computer, 0, true⟩],
        "h", 1⟩).err = some "handleTurn failed" ∧
    (endTurn ⟨[⟨"h", PlayerType.Human, 0, false⟩, ⟨"c", PlayerType.Computer, 0, true⟩],
        "h", 1⟩).currentPlayer = "c" ∧
    ("c" : String) ≠ "h" := by
  exact ⟨by decide, by decide, by decide⟩

/-- Claim C4, evaluated at the failing input: with a single player holding 0
gold (nobody above the 10000 threshold), `hasAnyPlayerWon` reports no winner
player but a positive win indication — the `!!result` on the filter array is
always true, so the second conjunct shows the win flag is true on every
player list, never the claimed negative indication. -/
theorem hasAnyPlayerWon_c4_eval :
    hasAnyPlayerWon [⟨"p1", PlayerType.Human, 0, false⟩] = (none, true) ∧
    ∀ players : List Player, (hasAnyPlayerWon players).2 = true :=
  ⟨by decide, fun _ => rfl⟩

/-- Claim C5, evaluated at the failing input: requesting the id u2 against a
catalog containing only u1 does not return false; instead the always-taken
branch appends `undefined` to the current player's upgrades and then raises a
TypeError (the `none` result), and the second conjunct shows the function can
never return false on any input. -/
theorem addUpgradeToPlayer_c5_eval :
    addUpgradeToPlayer [⟨"u1", UpgradeType.TrackValueCheaper, 0, 50⟩] ⟨[], []⟩ "u2"
      = (none, ⟨[none], []⟩) ∧
    ∀ (catalog : List Upgrade) (st : PlayerUpgradeState) (id : String),
      (addUpgradeToPlayer catalog st id).1 ≠ some false := by
  refine ⟨by decide, ?_⟩
  intro catalog st id
  unfold addUpgradeToPlayer
  rcases h : (catalog.filter (fun u => u.id == id)).head? with _ | u <;> simp [h]

/-- Counterexample to claim C6 as stated: with route r1 queued and its Track
expense present but a wrong train id passed, the call returns false yet the
route has already been removed from the queue and the Track expense from the
ledger. -/
theorem removeRoute_c6_counterexample :
    (removeRouteFromPlayerQueue
        ⟨[⟨"r1", 2⟩], [⟨FinanceType.Track, "r1", 1, 20⟩, ⟨FinanceType.Train, "t1", 1, 100⟩]⟩
        "r1" "zz").1 = false ∧
    (removeRouteFromPlayerQueue
        ⟨[⟨"r1", 2⟩], [⟨FinanceType.Track, "r1", 1, 20⟩, ⟨FinanceType.Train, "t1", 1, 100⟩]⟩
        "r1" "zz").2
      ≠ ⟨[⟨"r1", 2⟩], [⟨FinanceType.Track, "r1", 1, 20⟩, ⟨FinanceType.Train, "t1", 1, 100⟩]⟩ := by
  exact ⟨by decide, by decide⟩

/-- Claim C6 as amended: when the routeId is not present in the queue,
`removeRouteFromPlayerQueue` returns false and mutates nothing; but when the
queue removal succeeds and a subsequent finance removal fails, it returns
false with the queue (and possibly the Track expense) already mutated. -/
theorem removeRouteFromPlayerQueue_not_found (st : PlayerLedgerState)
    (routeId trainId : String)
    (h : st.queue.any (fun e => e.routeId == routeId) = false) :
    removeRouteFromPlayerQueue st routeId trainId = (false, st) := by
  have hq : removeRouteFromQueue st.queue routeId = (false, st.queue) := by
    simp [removeRouteFromQueue, h]
  simp [removeRouteFromPlayerQueue, hq]

/-- Witness for the amended claim C6: removing an id absent from the queue. -/
theorem removeRouteFromPlayerQueue_not_found_witness :
    removeRouteFromPlayerQueue ⟨[⟨"r1", 2⟩], [⟨FinanceType.Track, "r1", 1, 20⟩]⟩ "r9" "t1"
      = (false, ⟨[⟨"r1", 2⟩], [⟨FinanceType.Track, "r1", 1, 20⟩]⟩) :=
  removeRouteFromPlayerQueue_not_found _ "r9" "t1" (by decide)

/-- Claim C9: when the active-game flag key is absent from storage,
`createFromLocalStorage` raises the explicit error and constructs no game
state (the reconstruction continuation is never invoked). -/
theorem createFromLocalStorage_no_flag {α : Type}
    (reconstruct : (String → Option String) → α) (storage : String → Option String)
    (h : storage (localKeys LocalKey.HasActiveGame) = none) :
    createFromLocalStorage reconstruct storage
      = Except.error "cannot recreate from empty storage" := by
  simp [createFromLocalStorage, jsFalsyString, h]

/-- Witness for claim C9 on the empty storage. -/
theorem createFromLocalStorage_no_flag_witness :
    createFromLocalStorage (fun _ => (0 : Nat)) (fun _ => none)
      = Except.error "cannot recreate from empty storage" :=
  createFromLocalStorage_no_flag (fun _ => (0 : Nat)) (fun _ => none) rfl

/-- Claim C10: the constructor treats falsy arguments as absent: turn 0 and an
omitted turn both yield turn 1, and an omitted currentPlayer yields the first
element of a non-empty players list as the current player. -/
theorem nardisConstructor_defaults (players : List Player) (cp : Option Player)
    (t : Option Int) (h : players ≠ []) :
    (nardisConstructor players cp (some 0)).turn = 1 ∧
    (nardisConstructor players cp none).turn = 1 ∧
    (nardisConstructor players none t).currentPlayer = some (players.head h) := by
  refine ⟨by simp [nardisConstructor], by simp [nardisConstructor], ?_⟩
  simp [nardisConstructor, List.head?_eq_head h]

/-- Witness for claim C10 on a one-player list. -/
theorem nardisConstructor_defaults_witness :
    (nardisConstructor [⟨"p1", PlayerType.Human, 0, false⟩] none (some 0)).turn = 1 :=
  (nardisConstructor_defaults [⟨"p1", PlayerType.Human, 0, false⟩] none (some 7)
    (by decide)).1
